import Mathlib

/-!
Shallow embedding of the gocql execution core (src/session.go, src/events.go):
the retry-executing dispatcher, the paging iterator, the consistency-level
names, the event debouncer, and the node-event reconciler.

External collaborators (connections, the pool, the ring, unmarshaling,
host filtering) are modelled as parameters: a connection-pick sequence is a
function from the attempt index to the outcome the pool/connection would
produce on that attempt, the ring is a partial map from an IP string to a
host, and `Unmarshal` is an arbitrary function supplied by the caller.
Diagnostic log lines (`logger.Printf`) are not modelled, except for the
debouncer's per-drop diagnostic, which the spec counts.
-/

namespace Gocql

/-- Raw bytes of one column value (`[]byte` in Go). -/
abbrev Cell := List Nat

/-- Error values of the package (src/session.go `var (ErrNotFound = ...)`),
together with the connection-level and decode errors that external
collaborators can surface. `countMismatch` is the `errors.New("count
mismatch")` created inside `Iter.Scan`. -/
inductive QErr : Type where
  | notFound
  | unavailable
  | protocolErr
  | unsupported
  | tooManyStmts
  | countMismatch
  | unmarshalErr (n : Nat)
  | serverErr (code : Nat) (message : String)
  deriving DecidableEq, Repr

/-- Column metadata (src/session.go `type ColumnInfo`); the `TypeInfo`
pointer is opaque to this core and modelled as a number. -/
structure ColumnInfo : Type where
  Keyspace : String
  Table : String
  Name : String
  TypeInfo : Nat
  deriving DecidableEq, Repr

/-- One row of a result page: the ordered raw column values
(`[][]byte` per row in Go). -/
abbrev Row := List Cell

/-- src/session.go `type Iter`: terminal error, cursor position, buffered
rows, column metadata, and the optional continuation handle. The
continuation handle (`*nextIter`) is modelled by its prefetch-trigger
position together with the `Iter` its single-fire fetch resolves to (the
`sync.Once` latch makes that result unique, see `nextIterFetch`). -/
inductive Iter : Type where
  | mk (err : Option QErr) (pos : Nat) (rows : List Row)
       (columns : List ColumnInfo) (next : Option (Nat × Iter))
  deriving Repr

/-- The `err` field of an `Iter`. -/
def Iter.err : Iter → Option QErr
  | .mk e _ _ _ _ => e

/-- The `pos` field of an `Iter`. -/
def Iter.pos : Iter → Nat
  | .mk _ p _ _ _ => p

/-- The `rows` field of an `Iter`. -/
def Iter.rows : Iter → List Row
  | .mk _ _ r _ _ => r

/-- The `columns` field of an `Iter` (src/session.go `Iter.Columns`). -/
def Iter.columns : Iter → List ColumnInfo
  | .mk _ _ _ c _ => c

/-- The `next` field of an `Iter`. -/
def Iter.next : Iter → Option (Nat × Iter)
  | .mk _ _ _ _ n => n

/-- src/session.go `Iter.Close`: returns the recorded terminal error. -/
def Iter.Close (iter : Iter) : Option QErr :=
  iter.err

/-- The retry policy referenced by `Query.rt` / `Batch.rt`; only its
`NumRetries` count is read by the dispatcher. The claims quantify over
non-negative retry counts, so the count is a `Nat`. -/
structure RetryPolicy : Type where
  NumRetries : Nat
  deriving DecidableEq, Repr

/-- src/session.go `type Query`, restricted to the fields the dispatcher
reads (statement, consistency, retry policy); the tracer, session
back-reference and prefetch ratio are external/diagnostic. -/
structure Query : Type where
  stmt : String
  cons : Nat
  rt : RetryPolicy
  deriving DecidableEq, Repr

/-- src/session.go `type BatchType` constants. -/
inductive BatchType : Type where
  | LoggedBatch
  | UnloggedBatch
  | CounterBatch
  deriving DecidableEq, Repr

/-- src/session.go `type BatchEntry`: statement plus argument count (the
argument values are opaque to the dispatcher). -/
structure BatchEntry : Type where
  Stmt : String
  Args : List Nat
  deriving DecidableEq, Repr

/-- src/session.go `type Batch`. -/
structure Batch : Type where
  BType : BatchType
  Entries : List BatchEntry
  Cons : Nat
  rt : RetryPolicy
  deriving DecidableEq, Repr

/-- Outcome of one loop iteration of the query dispatcher, as produced by
the external pool and connection: `none` models `s.Node.Pick(nil)`
returning `nil`; `some it` models a successful pick whose
`conn.executeQuery(qry)` returned the iterator `it`. -/
abbrev QueryPickSeq := Nat → Option Iter

/-- Outcome of one loop iteration of the batch dispatcher: `none` models
`Pick` returning `nil`; `some e` models a pick whose
`conn.executeBatch(batch)` returned the error `e` (`e = none` is a nil
error, i.e. success). -/
abbrev BatchPickSeq := Nat → Option (Option QErr)

/-- Counters observed on the external pool during one dispatch: how many
times `Pick` was called and how many connection executions ran. -/
structure DispatchTrace : Type where
  picks : Nat
  execs : Nat
  deriving DecidableEq, Repr

/-- The loop body of src/session.go `Session.executeQuery`: while
`count <= qry.rt.NumRetries`, pick a connection (no connection: return an
iterator holding `ErrUnavailable`), execute, stop on success, otherwise
increment `count` and retry. `itr` is the iterator variable carried
across iterations (`none` models the not-yet-assigned `var itr *Iter`). -/
def executeQueryLoop (env : QueryPickSeq) (numRetries count : Nat)
    (itr : Option Iter) : DispatchTrace × Option Iter :=
  if count ≤ numRetries then
    match env count with
    | none => (⟨1, 0⟩, some (Iter.mk (some .unavailable) 0 [] [] none))
    | some it =>
      if it.err = none then
        (⟨1, 1⟩, some it)
      else
        let r := executeQueryLoop env numRetries (count + 1) (some it)
        (⟨r.1.picks + 1, r.1.execs + 1⟩, r.2)
  else
    (⟨0, 0⟩, itr)
termination_by numRetries + 1 - count

/-- src/session.go `Session.executeQuery`: run the retry loop from
`count = 0`. The result also reports the pool counters of the dispatch. -/
def Session.executeQuery (env : QueryPickSeq) (qry : Query) :
    DispatchTrace × Option Iter :=
  executeQueryLoop env qry.rt.NumRetries 0 none

/-- The loop body of src/session.go `Session.ExecuteBatch`: while
`count <= batch.rt.NumRetries`, pick a connection (no connection: set
`ErrUnavailable` and break), execute the batch, stop on a nil error,
otherwise increment `count` and retry. `err` is the error variable
carried across iterations. -/
def executeBatchLoop (env : BatchPickSeq) (numRetries count : Nat)
    (err : Option QErr) : DispatchTrace × Option QErr :=
  if count ≤ numRetries then
    match env count with
    | none => (⟨1, 0⟩, some .unavailable)
    | some e =>
      if e = none then
        (⟨1, 1⟩, none)
      else
        let r := executeBatchLoop env numRetries (count + 1) e
        (⟨r.1.picks + 1, r.1.execs + 1⟩, r.2)
  else
    (⟨0, 0⟩, err)
termination_by numRetries + 1 - count

/-- src/session.go `Session.ExecuteBatch`: reject a batch of more than
65536 entries with `ErrTooManyStmts` before any pick, otherwise run the
retry loop from `count = 0`. -/
def Session.ExecuteBatch (env : BatchPickSeq) (batch : Batch) :
    DispatchTrace × Option QErr :=
  if batch.Entries.length > 65536 then
    (⟨0, 0⟩, some .tooManyStmts)
  else
    executeBatchLoop env batch.rt.NumRetries 0 none

/-- An opaque destination slot passed to `Scan` (`interface{}` in Go);
only its identity matters to this core. -/
abbrev Dest := Nat

/-- The external value decoder `Unmarshal(typeInfo, bytes, dest)`: `none`
means the value was decoded into the destination, `some e` is the decode
error. -/
abbrev Unmarshaler := Nat → Cell → Dest → Option QErr

/-- The column-decoding loop of src/session.go `Iter.Scan`
(`for i := 0; i < len(iter.columns); i++`): a `none` destination slot is
the documented "skip this column" signal; the first decode failure is
returned. Called with `dest` of the same length as `cols` and a row of
the same length (rows shorter than the column list would panic in Go and
are outside every claim's domain). -/
def scanRowCols (u : Unmarshaler) :
    List ColumnInfo → List (Option Dest) → Row → Option QErr
  | c :: cs, d :: ds, b :: bs =>
    match d with
    | none => scanRowCols u cs ds bs
    | some dv =>
      match u c.TypeInfo b dv with
      | some e => some e
      | none => scanRowCols u cs ds bs
  | _, _, _ => none

/-- src/session.go `Iter.Scan`: return `false` on a recorded error; past
the buffered rows, swap in the continuation's iterator and scan it (or
return `false` when there is none); otherwise (the background prefetch
trigger `go iter.next.fetch()` has no effect on this iterator's state)
check the destination count against the column count, decode the current
row, and on success advance the cursor. The result is the updated
iterator together with Scan's boolean. -/
def Iter.Scan (u : Unmarshaler) : Iter → List (Option Dest) → Iter × Bool
  | .mk (some e) pos rows cols next, _ =>
    (.mk (some e) pos rows cols next, false)
  | .mk none pos rows cols next, dest =>
    if pos ≥ rows.length then
      match next with
      | some (_, n) => Iter.Scan u n dest
      | none => (.mk none pos rows cols next, false)
    else
      if dest.length ≠ cols.length then
        (.mk (some .countMismatch) pos rows cols next, false)
      else
        match scanRowCols u cols dest (rows.getD pos []) with
        | some e => (.mk (some e) pos rows cols next, false)
        | none => (.mk none (pos + 1) rows cols next, true)

/-- A sequence of `Scan` calls on one iterator, one destination list per
call, collecting each call's boolean. -/
def Iter.scanRun (u : Unmarshaler) :
    Iter → List (List (Option Dest)) → Iter × List Bool
  | it, [] => (it, [])
  | it, d :: ds =>
    let r := Iter.Scan u it d
    let s := Iter.scanRun u r.1 ds
    (s.1, r.2 :: s.2)

/-- State of the `sync.Once` latch inside src/session.go `type nextIter`:
whether `once.Do` has run, and the `next` field it assigns. -/
structure OnceState : Type where
  done : Bool
  next : Option Iter

/-- src/session.go `nextIter.fetch`: under the `sync.Once` latch, the
first caller runs `n.next = n.qry.session.executeQuery(&n.qry)` (the
network fetch, whose deterministic result is `result`); every caller then
returns `n.next`. Concurrent callers serialize on the latch's internal
lock, so a trace of calls in any serialization order is modelled. The
third component counts the network fetches this call performed. -/
def nextIterFetch (result : Iter) (s : OnceState) :
    OnceState × Option Iter × Nat :=
  if s.done then
    (s, s.next, 0)
  else
    (⟨true, some result⟩, some result, 1)

/-- A trace of `k` (serialized) calls to `nextIter.fetch`, collecting
each caller's observed iterator and the total number of network fetches. -/
def fetchTrace (result : Iter) : Nat → OnceState → OnceState × List (Option Iter) × Nat
  | 0, s => (s, [], 0)
  | k + 1, s =>
    let r := nextIterFetch result s
    let t := fetchTrace result k r.1
    (t.1, r.2.1 :: t.2.1, r.2.2 + t.2.2)

/-- src/session.go `var consinstencyNames`: the name table indexed by
`Consistency` (Any = 1 through LocalSerial = 10; index 0 is "default"). -/
def consinstencyNames : List String :=
  ["default", "any", "one", "two", "three", "quorum", "all",
   "localquorum", "eachquorum", "serial", "localserial"]

/-- src/session.go `type Consistency int` with its constants. -/
abbrev Consistency := Nat

def Consistency.Any : Consistency := 1
def Consistency.One : Consistency := 2
def Consistency.Two : Consistency := 3
def Consistency.Three : Consistency := 4
def Consistency.Quorum : Consistency := 5
def Consistency.All : Consistency := 6
def Consistency.LocalQuorum : Consistency := 7
def Consistency.EachQuorum : Consistency := 8
def Consistency.Serial : Consistency := 9
def Consistency.LocalSerial : Consistency := 10

/-- Result type of `Consistency.String` (`none` models the out-of-range
panic for undefined levels). -/
abbrev ConsName := Option String

/-- src/session.go `Consistency.String`: index into the name table. -/
def Consistency.String (c : Consistency) : ConsName :=
  consinstencyNames.get? c

/-- A `net.IP` value: the underlying bytes together with its `String()`
rendering (in Go the rendering is computed from the bytes; keeping it as
a field lets the model distinguish the IP object from the map key
`f.host.String()` that indexes the collapse map). -/
structure IPAddr : Type where
  bytes : List Nat
  str : String
  deriving DecidableEq, Repr

/-- The event frames dispatched by src/events.go `Session.handleEvent` to
the node-event debouncer and reconciler: topology-changed,
status-changed (host IP, port, "UP"/"DOWN" change string), and the
schema-change frames, which the node handler ignores. -/
inductive Frame : Type where
  | topologyChange (change : String) (host : IPAddr) (port : Int)
  | statusChange (change : String) (host : IPAddr) (port : Int)
  | schemaChange (keyspace : String) (change : String)
  deriving DecidableEq, Repr

/-- src/events.go `eventBufferSize`. -/
def eventBufferSize : Nat := 1000

/-- State of one src/events.go `eventDebouncer`: the buffered frames (in
insertion order) and the number of per-drop diagnostic log lines emitted
so far (timer and quit channel are real-time machinery outside this
model). -/
structure Debouncer : Type where
  events : List Frame
  dropLogs : Nat
  deriving DecidableEq, Repr

/-- The empty debouncer buffer, as after `newEventDebouncer` or a flush. -/
def Debouncer.init : Debouncer := ⟨[], 0⟩

/-- src/events.go `eventDebouncer.debounce` (under the debouncer's lock;
the timer reset is real-time machinery): append the frame while the
buffer holds fewer than `eventBufferSize` frames, otherwise drop it and
emit one diagnostic log line. -/
def Debouncer.debounce (e : Debouncer) (f : Frame) : Debouncer :=
  if e.events.length < eventBufferSize then
    { e with events := e.events ++ [f] }
  else
    { e with dropLogs := e.dropLogs + 1 }

/-- A sequence of `debounce` calls within one quiet window. -/
def Debouncer.debounceAll (e : Debouncer) (fs : List Frame) : Debouncer :=
  fs.foldl Debouncer.debounce e

/-- src/events.go `eventDebouncer.flush` (called with the lock held): on a
non-empty buffer, hand the buffered batch to the callback (the first
component) and reset the buffer; an empty buffer is left untouched with
no callback invocation. -/
def Debouncer.flush (e : Debouncer) : Option (List Frame) × Debouncer :=
  if e.events.length = 0 then
    (none, e)
  else
    (some e.events, { e with events := [] })

/-- The per-host record built by src/events.go `Session.handleNodeEvent`
(`type nodeEvent struct { change string; host net.IP; port int }`). -/
structure NodeEvent : Type where
  change : String
  host : IPAddr
  port : Int
  deriving DecidableEq, Repr

/-- The collapse map `sEvents map[string]*nodeEvent`, as an association
list keyed by `f.host.String()` in insertion order (Go map iteration
order is unspecified; the claims are per-host facts). -/
abbrev SEvents := List (String × NodeEvent)

/-- Go map lookup `sEvents[key]`: the entry stored under `key`. -/
def sLookup (m : SEvents) (k : String) : Option NodeEvent :=
  match m with
  | [] => none
  | kv :: rest => if kv.1 = k then some kv.2 else sLookup rest k

/-- Update every entry of the map at `key` (there is at most one): the
pointer write `event.change = f.change`. -/
def sEventsSetChange (m : SEvents) (key : String) (c : String) : SEvents :=
  m.map fun kv => if kv.1 = key then (kv.1, { kv.2 with change := c }) else kv

/-- One iteration of the frame loop of `Session.handleNodeEvent`: a
status-changed frame either creates the `sEvents` entry for its host key
(carrying this frame's change, host object and port) or overwrites the
existing entry's `change`; other frames leave the map alone. -/
def sEventsStep (m : SEvents) (f : Frame) : SEvents :=
  match f with
  | .statusChange c h p =>
    match sLookup m h.str with
    | some _ => sEventsSetChange m h.str c
    | none => m ++ [(h.str, ⟨c, h, p⟩)]
  | _ => m

/-- The `sEvents` map after the frame loop of `Session.handleNodeEvent`. -/
def buildSEvents (frames : List Frame) : SEvents :=
  frames.foldl sEventsStep []

/-- Whether the batch contains a topology-changed frame
(`topologyEventReceived` in `Session.handleNodeEvent`). -/
def topologyEventReceived (frames : List Frame) : Bool :=
  frames.any fun f =>
    match f with
    | .topologyChange _ _ _ => true
    | _ => false

/-- The `Events` flags of the cluster configuration read by
`Session.handleNodeEvent`. -/
structure EventsCfg : Type where
  DisableTopologyEvents : Bool
  DisableNodeStatusEvents : Bool
  deriving DecidableEq, Repr

/-- One status dispatch performed by `Session.handleNodeEvent`: a call to
`handleNodeUp` or `handleNodeDown` with the collapsed host and port. -/
inductive NodeDispatch : Type where
  | up (host : IPAddr) (port : Int)
  | down (host : IPAddr) (port : Int)
  deriving DecidableEq, Repr

/-- The host of a dispatch. -/
def NodeDispatch.host : NodeDispatch → IPAddr
  | .up h _ => h
  | .down h _ => h

/-- src/events.go `Session.handleNodeEvent`: collapse the status-changed
frames per host key, trigger a single ring refresh iff any
topology-changed frame arrived and topology events are enabled, then
dispatch each collapsed entry by its final change string ("UP"/"DOWN",
suppressed when node status events are disabled; other change strings
dispatch nothing). -/
def Session.handleNodeEvent (cfg : EventsCfg) (frames : List Frame) :
    Bool × List NodeDispatch :=
  let m := buildSEvents frames
  let refresh := topologyEventReceived frames && !cfg.DisableTopologyEvents
  let dispatches := m.filterMap fun kv =>
    if kv.2.change = "UP" then
      if !cfg.DisableNodeStatusEvents then some (.up kv.2.host kv.2.port) else none
    else if kv.2.change = "DOWN" then
      if !cfg.DisableNodeStatusEvents then some (.down kv.2.host kv.2.port) else none
    else none
  (refresh, dispatches)

/-- The change string of the last status-changed frame whose host renders
to `k` — the spec's "last status seen for that host within the batch"
(stated from the spec, to be compared with `buildSEvents`). -/
def specLastChange (k : String) : List Frame → Option String
  | [] => none
  | f :: rest =>
    match specLastChange k rest with
    | some c => some c
    | none =>
      match f with
      | .statusChange c h _ => if h.str = k then some c else none
      | _ => none

/-- The host object and port of the first status-changed frame whose host
renders to `k` (stated from the spec wording of C10, to be compared with
`buildSEvents`). -/
def specFirstHostPort (k : String) : List Frame → Option (IPAddr × Int)
  | [] => none
  | .statusChange _ h p :: rest =>
    if h.str = k then some (h, p) else specFirstHostPort k rest
  | _ :: rest => specFirstHostPort k rest

/-- The state enum of a host (`NodeUp` / `NodeDown`). -/
inductive NodeState : Type where
  | NodeUp
  | NodeDown
  deriving DecidableEq, Repr

/-- The external host record resolved from the ring: its identity and the
protocol-version-specific startup delay `host.Version().nodeUpDelay()`. -/
structure HostInfo : Type where
  hostID : String
  upDelay : Nat
  deriving DecidableEq, Repr

/-- The current topology view: `s.ring.getHostByIP`, a partial map from
an IP string to the known host. -/
abbrev Ring := String → Option HostInfo

/-- The host filter `s.cfg.filterHost` (`true` = excluded by filtering). -/
abbrev HostFilter := HostInfo → Bool

/-- The externally visible actions of the UP/DOWN reconcilers, in program
order (diagnostic log lines are not modelled). -/
inductive Effect : Type where
  | debounceRingRefresh
  | sleep (d : Nat)
  | poolAddHost (h : HostInfo)
  | policyAddHost (h : HostInfo)
  | setState (h : HostInfo) (st : NodeState)
  | policyHostDown (h : HostInfo)
  | poolRemoveHost (hostID : String)
  deriving DecidableEq, Repr

/-- src/events.go `Session.handleNodeUp`: resolve the event IP against the
ring; unknown hosts trigger a ring refresh and nothing else (the event is
not requeued); known-but-filtered hosts are ignored; otherwise sleep the
version-specific delay (when positive) and start the pool fill
(`startPoolFill`: `pool.addHost` then `policy.AddHost`). -/
def Session.handleNodeUp (ring : Ring) (filterHost : HostFilter)
    (eventIp : IPAddr) (eventPort : Int) : List Effect :=
  match ring eventIp.str with
  | none => [.debounceRingRefresh]
  | some host =>
    if filterHost host then
      []
    else
      (if host.upDelay > 0 then [.sleep host.upDelay] else []) ++
        [.poolAddHost host, .policyAddHost host]

/-- src/events.go `Session.handleNodeDown`: resolve the event IP against
the ring; unknown hosts cause no action; a known host is marked
`NodeDown` unconditionally, and then — unless excluded by filtering — the
policy is notified and the pool drops the host's membership by host ID. -/
def Session.handleNodeDown (ring : Ring) (filterHost : HostFilter)
    (ip : IPAddr) (port : Int) : List Effect :=
  match ring ip.str with
  | none => []
  | some host =>
    .setState host .NodeDown ::
      (if filterHost host then [] else [.policyHostDown host, .poolRemoveHost host.hostID])

/-! ## Theorems -/

/-- C4 counterexample: at the defined level `LocalQuorum`,
`Consistency.String` does not return the spec's name "local_quorum" (the
table entry has no underscore). -/
theorem consistencyString_localQuorum_no_underscore :
    Consistency.String Consistency.LocalQuorum ≠ some "local_quorum" := by
  decide

/-- C4 (amended): for every defined `Consistency` level, `String` returns
the canonical lowercase name from the table `any, one, two, three,
quorum, all, localquorum, eachquorum, serial, localserial` (in that order
for `Any` through `LocalSerial`, written without underscores), and the
value 0 maps to "default". -/
theorem consistencyString_canonical_names :
    Consistency.String 0 = some "default" ∧
    Consistency.String Consistency.Any = some "any" ∧
    Consistency.String Consistency.One = some "one" ∧
    Consistency.String Consistency.Two = some "two" ∧
    Consistency.String Consistency.Three = some "three" ∧
    Consistency.String Consistency.Quorum = some "quorum" ∧
    Consistency.String Consistency.All = some "all" ∧
    Consistency.String Consistency.LocalQuorum = some "localquorum" ∧
    Consistency.String Consistency.EachQuorum = some "eachquorum" ∧
    Consistency.String Consistency.Serial = some "serial" ∧
    Consistency.String Consistency.LocalSerial = some "localserial" := by
  refine ⟨rfl, rfl, rfl, rfl, rfl, rfl, rfl, rfl, rfl, rfl, rfl⟩

/-- C2: a batch of more than 65536 entries is rejected by
`Session.ExecuteBatch` with `ErrTooManyStmts` before any connection pick
or execution (both counters zero), and a batch of at most 65536 entries
is not rejected by this check: execution proceeds to the retry loop. -/
theorem executeBatch_cap (env : BatchPickSeq) (batch : Batch) :
    (batch.Entries.length > 65536 →
      Session.ExecuteBatch env batch = (⟨0, 0⟩, some .tooManyStmts)) ∧
    (batch.Entries.length ≤ 65536 →
      Session.ExecuteBatch env batch =
        executeBatchLoop env batch.rt.NumRetries 0 none) := by
  constructor
  · intro h
    simp [Session.ExecuteBatch, h]
  · intro h
    simp [Session.ExecuteBatch, Nat.not_lt.mpr h]

/-- C2 witness: a 65537-entry batch is rejected with zero picks and zero
executions; an empty batch reaches the retry loop. -/
theorem executeBatch_cap_witness :
    Session.ExecuteBatch (fun _ => some none)
        ⟨.LoggedBatch, List.replicate 65537 ⟨"", []⟩, 0, ⟨0⟩⟩ =
      (⟨0, 0⟩, some .tooManyStmts) ∧
    Session.ExecuteBatch (fun _ => some none) ⟨.LoggedBatch, [], 0, ⟨0⟩⟩ =
      executeBatchLoop (fun _ => some none) 0 0 none :=
  ⟨(executeBatch_cap _ _).1
     (by show (List.replicate 65537 (⟨"", []⟩ : BatchEntry)).length > 65536
         rw [List.length_replicate]
         omega),
   (executeBatch_cap _ _).2
     (by show ([] : List BatchEntry).length ≤ 65536
         simp)⟩

/-- C8: an UP status event whose host IP is unknown to the ring makes
`Session.handleNodeUp` trigger exactly one ring refresh and nothing else:
no pool fill, no policy notification, and no requeue of the event. -/
theorem handleNodeUp_unknown_host (ring : Ring) (filterHost : HostFilter)
    (ip : IPAddr) (port : Int) (h : ring ip.str = none) :
    Session.handleNodeUp ring filterHost ip port = [.debounceRingRefresh] := by
  simp [Session.handleNodeUp, h]

/-- C8 witness: with an empty ring, the UP handler emits only the ring
refresh. -/
theorem handleNodeUp_unknown_host_witness :
    Session.handleNodeUp (fun _ => none) (fun _ => false) ⟨[10, 0, 0, 1], "10.0.0.1"⟩ 9042 =
      [.debounceRingRefresh] :=
  handleNodeUp_unknown_host (fun _ => none) (fun _ => false) ⟨[10, 0, 0, 1], "10.0.0.1"⟩ 9042 rfl

/-- C9: `Session.handleNodeDown` on an unknown host IP performs no
action at all; on a known host it sets the host state to `NodeDown`
first and unconditionally, and then, only if the host is not excluded by
filtering, notifies the policy and removes the host's pool membership by
host ID. -/
theorem handleNodeDown_cases (ring : Ring) (filterHost : HostFilter)
    (ip : IPAddr) (port : Int) :
    (ring ip.str = none →
      Session.handleNodeDown ring filterHost ip port = []) ∧
    (∀ host, ring ip.str = some host → filterHost host = true →
      Session.handleNodeDown ring filterHost ip port =
        [.setState host .NodeDown]) ∧
    (∀ host, ring ip.str = some host → filterHost host = false →
      Session.handleNodeDown ring filterHost ip port =
        [.setState host .NodeDown, .policyHostDown host,
         .poolRemoveHost host.hostID]) := by
  refine ⟨?_, ?_, ?_⟩
  · intro h
    simp [Session.handleNodeDown, h]
  · intro host h hf
    simp [Session.handleNodeDown, h, hf]
  · intro host h hf
    simp [Session.handleNodeDown, h, hf]

/-- C9 witness: the three cases of the DOWN handler at concrete inputs
(unknown IP; known filtered host; known unfiltered host). -/
theorem handleNodeDown_cases_witness :
    Session.handleNodeDown (fun _ => none) (fun _ => false) ⟨[1], "h1"⟩ 1 = [] ∧
    Session.handleNodeDown (fun _ => some ⟨"id1", 0⟩) (fun _ => true) ⟨[1], "h1"⟩ 1 =
      [.setState ⟨"id1", 0⟩ .NodeDown] ∧
    Session.handleNodeDown (fun _ => some ⟨"id1", 0⟩) (fun _ => false) ⟨[1], "h1"⟩ 1 =
      [.setState ⟨"id1", 0⟩ .NodeDown, .policyHostDown ⟨"id1", 0⟩,
       .poolRemoveHost "id1"] :=
  ⟨(handleNodeDown_cases (fun _ => none) (fun _ => false) ⟨[1], "h1"⟩ 1).1 rfl,
   (handleNodeDown_cases (fun _ => some ⟨"id1", 0⟩) (fun _ => true) ⟨[1], "h1"⟩ 1).2.1
     ⟨"id1", 0⟩ rfl rfl,
   (handleNodeDown_cases (fun _ => some ⟨"id1", 0⟩) (fun _ => false) ⟨[1], "h1"⟩ 1).2.2
     ⟨"id1", 0⟩ rfl rfl⟩

/-- After the latch has fired with result stored, further fetch calls
perform no network fetch and all observe the stored iterator. -/
theorem fetchTrace_done (result : Iter) (k : Nat) :
    fetchTrace result k ⟨true, some result⟩ =
      (⟨true, some result⟩, List.replicate k (some result), 0) := by
  induction k with
  | zero => rfl
  | succ n ih =>
    simp [fetchTrace, nextIterFetch, ih, List.replicate_succ]

/-- C5: starting from the unfired latch, any positive number of
(serialized) calls to `nextIter.fetch` performs exactly one network fetch
in total, and every caller observes the same resulting iterator. -/
theorem nextIterFetch_once (result : Iter) (k : Nat) (hk : 1 ≤ k) :
    fetchTrace result k ⟨false, none⟩ =
      (⟨true, some result⟩, List.replicate k (some result), 1) := by
  obtain ⟨n, rfl⟩ : ∃ n, k = n + 1 := ⟨k - 1, by omega⟩
  simp [fetchTrace, nextIterFetch, fetchTrace_done, List.replicate_succ]

/-- C5 witness: two racing callers (prefetch trigger and forced
completion) produce one network fetch and agree on the result. -/
theorem nextIterFetch_once_witness :
    fetchTrace (.mk none 0 [] [] none) 2 ⟨false, none⟩ =
      (⟨true, some (.mk none 0 [] [] none)⟩,
       List.replicate 2 (some (.mk none 0 [] [] none)), 1) :=
  nextIterFetch_once (.mk none 0 [] [] none) 2 (by omega)

/-- Folding `debounce` over any arrival sequence, from any buffer state
within capacity: the buffer gains exactly the arrivals that fit
(insertion order preserved) and one drop diagnostic is logged per
arrival beyond capacity. -/
theorem debounceAll_from (fs : List Frame) :
    ∀ e : Debouncer, e.events.length ≤ eventBufferSize →
      (e.debounceAll fs).events =
          e.events ++ fs.take (eventBufferSize - e.events.length) ∧
        (e.debounceAll fs).dropLogs =
          e.dropLogs + (fs.length - (eventBufferSize - e.events.length)) := by
  induction fs with
  | nil => intro e he; simp [Debouncer.debounceAll]
  | cons f rest ih =>
    intro e he
    by_cases hlt : e.events.length < eventBufferSize
    · have hstep : e.debounce f = { e with events := e.events ++ [f] } := by
        simp [Debouncer.debounce, hlt]
      have hlen : (e.events ++ [f]).length ≤ eventBufferSize := by
        simp; omega
      obtain ⟨h1, h2⟩ := ih { e with events := e.events ++ [f] } hlen
      have hcap : eventBufferSize - e.events.length =
          (eventBufferSize - (e.events.length + 1)) + 1 := by omega
      constructor
      · show (Debouncer.debounceAll (e.debounce f) rest).events = _
        rw [hstep, hcap]
        simp only [List.take_succ_cons] at h1 ⊢
        rw [h1]
        simp
      · show (Debouncer.debounceAll (e.debounce f) rest).dropLogs = _
        rw [hstep]
        rw [h2]
        simp
        omega
    · have hfull : e.events.length = eventBufferSize := by omega
      have hstep : e.debounce f = { e with dropLogs := e.dropLogs + 1 } := by
        simp [Debouncer.debounce, hlt]
      obtain ⟨h1, h2⟩ := ih { e with dropLogs := e.dropLogs + 1 } (by simp [hfull])
      constructor
      · show (Debouncer.debounceAll (e.debounce f) rest).events = _
        rw [hstep, h1]
        simp [hfull]
      · show (Debouncer.debounceAll (e.debounce f) rest).dropLogs = _
        rw [hstep, h2]
        simp [hfull]
        omega

/-- C6: over one quiet window starting from an empty buffer, the
debouncer keeps exactly the first `eventBufferSize` (1000) arrivals in
insertion order, logs one drop diagnostic per arrival beyond that, never
holds more than 1000 frames, and a flush hands the callback exactly the
retained (at most 1000) frames and resets the buffer. -/
theorem debouncer_overflow (fs : List Frame) :
    (Debouncer.init.debounceAll fs).events = fs.take eventBufferSize ∧
    (Debouncer.init.debounceAll fs).dropLogs = fs.length - eventBufferSize ∧
    (Debouncer.init.debounceAll fs).events.length ≤ eventBufferSize ∧
    (fs ≠ [] →
      (Debouncer.init.debounceAll fs).flush =
        (some (fs.take eventBufferSize),
         ⟨[], fs.length - eventBufferSize⟩)) := by
  have h1 : (Debouncer.init.debounceAll fs).events = fs.take eventBufferSize := by
    simpa [Debouncer.init] using
      (debounceAll_from fs Debouncer.init (by simp [Debouncer.init])).1
  have h2 : (Debouncer.init.debounceAll fs).dropLogs = fs.length - eventBufferSize := by
    simpa [Debouncer.init] using
      (debounceAll_from fs Debouncer.init (by simp [Debouncer.init])).2
  refine ⟨h1, h2, ?_, ?_⟩
  · rw [h1]
    exact List.length_take_le _ _
  · intro hne
    have hne' : fs.take eventBufferSize ≠ [] := by
      cases fs with
      | nil => exact absurd rfl hne
      | cons a l => simp [eventBufferSize]
    simp [Debouncer.flush, h1, h2, hne']
    exact ⟨by simp [eventBufferSize], hne⟩

/-- C6 witness: 1001 arrivals in one window keep exactly 1000 events,
log exactly 1 drop, and the flush hands the callback those 1000 frames. -/
theorem debouncer_overflow_witness :
    (Debouncer.init.debounceAll
        (List.replicate 1001 (Frame.schemaChange "k" "c"))).events.length = 1000 ∧
    (Debouncer.init.debounceAll
        (List.replicate 1001 (Frame.schemaChange "k" "c"))).dropLogs = 1 ∧
    ((Debouncer.init.debounceAll
        (List.replicate 1001 (Frame.schemaChange "k" "c"))).flush).1 =
      some (List.replicate 1000 (Frame.schemaChange "k" "c")) := by
  obtain ⟨h1, h2, h3, h4⟩ :=
    debouncer_overflow (List.replicate 1001 (Frame.schemaChange "k" "c"))
  have hne : List.replicate 1001 (Frame.schemaChange "k" "c") ≠ [] := by
    intro h
    have := congrArg List.length h
    rw [List.length_replicate] at this
    exact absurd this (by decide)
  have htake : (List.replicate 1001 (Frame.schemaChange "k" "c")).take eventBufferSize =
      List.replicate 1000 (Frame.schemaChange "k" "c") := by
    rw [List.take_replicate]
    norm_num [eventBufferSize]
  refine ⟨?_, ?_, ?_⟩
  · rw [h1, htake, List.length_replicate]
  · rw [h2, List.length_replicate]
    norm_num [eventBufferSize]
  · rw [h4 hne, htake]

/-- All-failure run of the query retry loop: with a connection available
on every pick and every execution failing, the loop consumes its whole
budget and carries out the last attempt's iterator. -/
theorem executeQueryLoop_allFail (f : Nat → Iter) (hf : ∀ k, (f k).err ≠ none)
    (N : Nat) :
    ∀ fuel count itr0, count + fuel = N + 1 →
      executeQueryLoop (fun k => some (f k)) N count itr0 =
        (⟨fuel, fuel⟩, if fuel = 0 then itr0 else some (f N)) := by
  intro fuel
  induction fuel with
  | zero =>
    intro count itr0 h
    unfold executeQueryLoop
    simp [show ¬count ≤ N by omega]
  | succ n ih =>
    intro count itr0 h
    have hcount : count ≤ N := by omega
    unfold executeQueryLoop
    simp only [hcount, if_true, hf count, if_neg (hf count)]
    rw [ih (count + 1) (some (f count)) (by omega)]
    rcases Nat.eq_zero_or_pos n with hn | hn
    · subst hn
      have : count = N := by omega
      subst this
      simp
    · simp [Nat.pos_iff_ne_zero.mp hn]

/-- Successful run of the query retry loop: failures strictly before
attempt index `s`, success at `s`, and a budget that reaches `s` make the
loop stop at attempt `s` and return its iterator. -/
theorem executeQueryLoop_success (f : Nat → Iter) (N s : Nat) (hs : s ≤ N)
    (hfail : ∀ j, j < s → (f j).err ≠ none) (hsucc : (f s).err = none) :
    ∀ d count itr0, count + d = s →
      executeQueryLoop (fun k => some (f k)) N count itr0 =
        (⟨d + 1, d + 1⟩, some (f s)) := by
  intro d
  induction d with
  | zero =>
    intro count itr0 h
    have : count = s := by omega
    subst this
    unfold executeQueryLoop
    simp [show count ≤ N by omega, hsucc]
  | succ n ih =>
    intro count itr0 h
    have hcount : count ≤ N := by omega
    have hcf : (f count).err ≠ none := hfail count (by omega)
    unfold executeQueryLoop
    simp only [hcount, if_true, if_neg hcf]
    rw [ih (count + 1) (some (f count)) (by omega)]

/-- All-failure run of the batch retry loop. -/
theorem executeBatchLoop_allFail (g : Nat → Option QErr) (hg : ∀ k, g k ≠ none)
    (N : Nat) :
    ∀ fuel count err0, count + fuel = N + 1 →
      executeBatchLoop (fun k => some (g k)) N count err0 =
        (⟨fuel, fuel⟩, if fuel = 0 then err0 else g N) := by
  intro fuel
  induction fuel with
  | zero =>
    intro count err0 h
    unfold executeBatchLoop
    simp [show ¬count ≤ N by omega]
  | succ n ih =>
    intro count err0 h
    have hcount : count ≤ N := by omega
    unfold executeBatchLoop
    simp only [hcount, if_true, if_neg (hg count)]
    rw [ih (count + 1) (g count) (by omega)]
    rcases Nat.eq_zero_or_pos n with hn | hn
    · subst hn
      have : count = N := by omega
      subst this
      simp
    · simp [Nat.pos_iff_ne_zero.mp hn]

/-- Successful run of the batch retry loop. -/
theorem executeBatchLoop_success (g : Nat → Option QErr) (N s : Nat) (hs : s ≤ N)
    (hfail : ∀ j, j < s → g j ≠ none) (hsucc : g s = none) :
    ∀ d count err0, count + d = s →
      executeBatchLoop (fun k => some (g k)) N count err0 =
        (⟨d + 1, d + 1⟩, none) := by
  intro d
  induction d with
  | zero =>
    intro count err0 h
    have : count = s := by omega
    subst this
    unfold executeBatchLoop
    simp [show count ≤ N by omega, hsucc]
  | succ n ih =>
    intro count err0 h
    have hcount : count ≤ N := by omega
    have hcf : g count ≠ none := hfail count (by omega)
    unfold executeBatchLoop
    simp only [hcount, if_true, if_neg hcf]
    rw [ih (count + 1) (g count) (by omega)]

/-- C1: for a retry count `N` (`qry.rt.NumRetries` / `batch.rt.NumRetries`)
and connections available on every pick, (a) if every execution fails,
`Session.executeQuery` makes exactly `N + 1` picks and executions and
returns the final attempt's iterator (carrying its error); (b) if the
first success is attempt `s + 1 ≤ N + 1`, it makes exactly `s + 1`
attempts and returns that attempt's iterator; (c) and (d) are the same
two facts for `Session.ExecuteBatch` on a batch under the entry cap,
which returns the final attempt's error, respectively `nil`. -/
theorem retry_dispatcher_attempt_counts (qry : Query) (batch : Batch)
    (f : Nat → Iter) (g : Nat → Option QErr) :
    ((∀ k, (f k).err ≠ none) →
      Session.executeQuery (fun k => some (f k)) qry =
        (⟨qry.rt.NumRetries + 1, qry.rt.NumRetries + 1⟩,
         some (f qry.rt.NumRetries))) ∧
    (∀ s, s ≤ qry.rt.NumRetries → (∀ j, j < s → (f j).err ≠ none) →
      (f s).err = none →
      Session.executeQuery (fun k => some (f k)) qry =
        (⟨s + 1, s + 1⟩, some (f s))) ∧
    (batch.Entries.length ≤ 65536 → (∀ k, g k ≠ none) →
      Session.ExecuteBatch (fun k => some (g k)) batch =
        (⟨batch.rt.NumRetries + 1, batch.rt.NumRetries + 1⟩,
         g batch.rt.NumRetries)) ∧
    (batch.Entries.length ≤ 65536 → ∀ s, s ≤ batch.rt.NumRetries →
      (∀ j, j < s → g j ≠ none) → g s = none →
      Session.ExecuteBatch (fun k => some (g k)) batch =
        (⟨s + 1, s + 1⟩, none)) := by
  refine ⟨?_, ?_, ?_, ?_⟩
  · intro hf
    unfold Session.executeQuery
    rw [executeQueryLoop_allFail f hf qry.rt.NumRetries (qry.rt.NumRetries + 1) 0 none
      (by omega)]
    simp
  · intro s hs hfail hsucc
    unfold Session.executeQuery
    rw [executeQueryLoop_success f qry.rt.NumRetries s hs hfail hsucc s 0 none
      (by omega)]
  · intro hb hg
    unfold Session.ExecuteBatch
    rw [if_neg (by omega)]
    rw [executeBatchLoop_allFail g hg batch.rt.NumRetries (batch.rt.NumRetries + 1) 0 none
      (by omega)]
    simp
  · intro hb s hs hfail hsucc
    unfold Session.ExecuteBatch
    rw [if_neg (by omega)]
    rw [executeBatchLoop_success g batch.rt.NumRetries s hs hfail hsucc s 0 none
      (by omega)]

/-- C1 witness: with retry count 2, three always-failing attempts return
the third attempt's result, and a failure followed by a success stops
after two attempts — for the query and the batch dispatcher alike. -/
theorem retry_dispatcher_attempt_counts_witness :
    Session.executeQuery
        (fun k => some (Iter.mk (some (.serverErr k "x")) 0 [] [] none))
        ⟨"sel", 5, ⟨2⟩⟩ =
      (⟨3, 3⟩, some (Iter.mk (some (.serverErr 2 "x")) 0 [] [] none)) ∧
    Session.executeQuery
        (fun k => some (if k = 0 then Iter.mk (some .protocolErr) 0 [] [] none
                        else Iter.mk none 0 [] [] none))
        ⟨"sel", 5, ⟨2⟩⟩ =
      (⟨2, 2⟩, some (Iter.mk none 0 [] [] none)) ∧
    Session.ExecuteBatch (fun k => some (some (.serverErr k "y")))
        ⟨.LoggedBatch, [], 0, ⟨2⟩⟩ =
      (⟨3, 3⟩, some (.serverErr 2 "y")) ∧
    Session.ExecuteBatch (fun k => some (if k = 0 then some .protocolErr else none))
        ⟨.LoggedBatch, [], 0, ⟨2⟩⟩ =
      (⟨2, 2⟩, none) := by
  refine ⟨?_, ?_, ?_, ?_⟩
  · exact (retry_dispatcher_attempt_counts ⟨"sel", 5, ⟨2⟩⟩ ⟨.LoggedBatch, [], 0, ⟨2⟩⟩
      (fun k => Iter.mk (some (.serverErr k "x")) 0 [] [] none) (fun _ => none)).1
      (fun k => by simp [Iter.err])
  · exact (retry_dispatcher_attempt_counts ⟨"sel", 5, ⟨2⟩⟩ ⟨.LoggedBatch, [], 0, ⟨2⟩⟩
      (fun k => if k = 0 then Iter.mk (some .protocolErr) 0 [] [] none
                else Iter.mk none 0 [] [] none) (fun _ => none)).2.1
      1 (by decide) (fun j hj => by interval_cases j; simp [Iter.err]) rfl
  · exact (retry_dispatcher_attempt_counts ⟨"sel", 5, ⟨2⟩⟩ ⟨.LoggedBatch, [], 0, ⟨2⟩⟩
      (fun _ => Iter.mk none 0 [] [] none) (fun k => some (.serverErr k "y"))).2.2.1
      (Nat.zero_le _) (fun k => by simp)
  · exact (retry_dispatcher_attempt_counts ⟨"sel", 5, ⟨2⟩⟩ ⟨.LoggedBatch, [], 0, ⟨2⟩⟩
      (fun _ => Iter.mk none 0 [] [] none)
      (fun k => if k = 0 then some .protocolErr else none)).2.2.2
      (Nat.zero_le _) 1 (by decide) (fun j hj => by interval_cases j; simp) rfl

/-- Calling `Scan` on an iterator with a recorded error returns `false` and
changes nothing. -/
theorem scan_err_state (u : Unmarshaler) (e : QErr) (pos : Nat) (rows : List Row)
    (cols : List ColumnInfo) (next : Option (Nat × Iter)) (dest : List (Option Dest)) :
    Iter.Scan u (.mk (some e) pos rows cols next) dest =
      (.mk (some e) pos rows cols next, false) := rfl

/-- After an error, any sequence of further `Scan` calls returns all
`false` and leaves the iterator untouched. -/
theorem scanRun_err_state (u : Unmarshaler) (e : QErr) (pos : Nat) (rows : List Row)
    (cols : List ColumnInfo) (next : Option (Nat × Iter)) :
    ∀ ds, Iter.scanRun u (.mk (some e) pos rows cols next) ds =
      (.mk (some e) pos rows cols next, List.replicate ds.length false) := by
  intro ds
  induction ds with
  | nil => rfl
  | cons d rest ih =>
    simp [Iter.scanRun, scan_err_state, ih, List.replicate_succ]

/-- Calling `Scan` on an error-free iterator whose current row fails to decode:
the decode error becomes the terminal error, the cursor does not move,
and `false` is returned. -/
theorem scan_decode_fail (u : Unmarshaler) (pos : Nat) (rows : List Row)
    (cols : List ColumnInfo) (next : Option (Nat × Iter))
    (dest : List (Option Dest)) (e : QErr)
    (hpos : pos < rows.length) (hdl : dest.length = cols.length)
    (hf : scanRowCols u cols dest (rows.getD pos []) = some e) :
    Iter.Scan u (.mk none pos rows cols next) dest =
      (.mk (some e) pos rows cols next, false) := by
  cases next with
  | none =>
    simp only [Iter.Scan]
    rw [if_neg (by omega), if_neg (not_ne_iff.mpr hdl), hf]
  | some nx =>
    obtain ⟨q, n⟩ := nx
    simp only [Iter.Scan]
    rw [if_neg (by omega), if_neg (not_ne_iff.mpr hdl), hf]

/-- Calling `Scan` on an error-free iterator whose current row decodes: the
cursor advances by one and `true` is returned. -/
theorem scan_decode_success (u : Unmarshaler) (pos : Nat) (rows : List Row)
    (cols : List ColumnInfo) (next : Option (Nat × Iter))
    (dest : List (Option Dest))
    (hpos : pos < rows.length) (hdl : dest.length = cols.length)
    (hf : scanRowCols u cols dest (rows.getD pos []) = none) :
    Iter.Scan u (.mk none pos rows cols next) dest =
      (.mk none (pos + 1) rows cols next, true) := by
  cases next with
  | none =>
    simp only [Iter.Scan]
    rw [if_neg (by omega), if_neg (not_ne_iff.mpr hdl), hf]
  | some nx =>
    obtain ⟨q, n⟩ := nx
    simp only [Iter.Scan]
    rw [if_neg (by omega), if_neg (not_ne_iff.mpr hdl), hf]

/-- Run lemma for C3, generalized over the starting cursor `p`: rows
`p .. p+i-1` decode, row `p+i` fails, so the run returns `i` `true`s,
then `false`, leaving the cursor at `p + i` with the decode error
recorded. -/
theorem scanRun_fail_aux (u : Unmarshaler) (cols : List ColumnInfo) (e : QErr) :
    ∀ (i : Nat) (dests : List (List (Option Dest))) (rows : List Row)
      (next : Option (Nat × Iter)) (p : Nat),
      dests.length = i + 1 →
      p + i < rows.length →
      (∀ j, j ≤ i → (dests.getD j []).length = cols.length) →
      (∀ j, j < i → scanRowCols u cols (dests.getD j []) (rows.getD (p + j) []) = none) →
      scanRowCols u cols (dests.getD i []) (rows.getD (p + i) []) = some e →
      Iter.scanRun u (.mk none p rows cols next) dests =
        (.mk (some e) (p + i) rows cols next,
         List.replicate i true ++ [false]) := by
  intro i
  induction i with
  | zero =>
    intro dests rows next p hlen hrows hdl hok hfail
    match dests, hlen with
    | [d], _ =>
      simp only [List.getD_cons_zero] at hfail
      have hd : d.length = cols.length := by
        simpa using hdl 0 (by omega)
      simp [Iter.scanRun,
        scan_decode_fail u p rows cols next d e (by omega) hd
          (by simpa using hfail)]
  | succ n ih =>
    intro dests rows next p hlen hrows hdl hok hfail
    match dests with
    | d :: ds =>
      have hd : d.length = cols.length := by
        simpa using hdl 0 (by omega)
      have h0 : scanRowCols u cols d (rows.getD p []) = none := by
        simpa using hok 0 (by omega)
      have hrec := ih ds rows next (p + 1)
        (by simpa using hlen)
        (by omega)
        (fun j hj => by simpa using hdl (j + 1) (by omega))
        (fun j hj => by
          have := hok (j + 1) (by omega)
          simpa [Nat.add_assoc, Nat.add_comm 1 j] using this)
        (by
          have := hfail
          simpa [Nat.add_assoc, Nat.add_comm 1 n] using this)
      simp only [Iter.scanRun]
      rw [scan_decode_success u p rows cols next d (by omega) hd h0]
      rw [hrec]
      have hpp : p + 1 + n = p + (n + 1) := by omega
      simp [hpp, List.replicate_succ]

/-- C3: an error-free iterator whose rows `0 .. i-1` decode and whose row
`i` fails to decode delivers rows `0 .. i-1` correctly (each `Scan`
returns `true` and advances the cursor), then the failing `Scan` returns
`false` with the cursor left at `i` (not advanced for that row) and the
decode error recorded; `Close` returns exactly that decode error, and
any further `Scan` calls return `false` without side effects. -/
theorem scan_decode_failure_run (u : Unmarshaler) (rows : List Row)
    (cols : List ColumnInfo) (next : Option (Nat × Iter))
    (dests : List (List (Option Dest))) (i : Nat) (e : QErr)
    (hlen : dests.length = i + 1) (hrows : i < rows.length)
    (hdl : ∀ j, j ≤ i → (dests.getD j []).length = cols.length)
    (hok : ∀ j, j < i → scanRowCols u cols (dests.getD j []) (rows.getD j []) = none)
    (hfail : scanRowCols u cols (dests.getD i []) (rows.getD i []) = some e) :
    Iter.scanRun u (.mk none 0 rows cols next) dests =
      (.mk (some e) i rows cols next, List.replicate i true ++ [false]) ∧
    (Iter.mk (some e) i rows cols next).Close = some e ∧
    (∀ ds, Iter.scanRun u (.mk (some e) i rows cols next) ds =
      (.mk (some e) i rows cols next, List.replicate ds.length false)) := by
  refine ⟨?_, rfl, scanRun_err_state u e i rows cols next⟩
  have := scanRun_fail_aux u cols e i dests rows next 0 hlen
    (by omega)
    hdl
    (fun j hj => by simpa using hok j hj)
    (by simpa using hfail)
  simpa using this

/-- C3 witness: two rows, decode succeeds on row 0 and fails on row 1
with error `unmarshalErr 7`; the run returns `[true, false]`, the cursor
stays at 1, `Close` returns the decode error, and one further `Scan`
returns `false` unchanged. -/
theorem scan_decode_failure_run_witness :
    Iter.scanRun (fun _ cell _ => if cell.length = 0 then some (.unmarshalErr 7) else none)
        (.mk none 0 [[[1]], [[]]] [⟨"ks", "t", "c", 0⟩] none)
        [[some 0], [some 0]] =
      (.mk (some (.unmarshalErr 7)) 1 [[[1]], [[]]] [⟨"ks", "t", "c", 0⟩] none,
       [true, false]) ∧
    (Iter.mk (some (.unmarshalErr 7)) 1 [[[1]], [[]]] [⟨"ks", "t", "c", 0⟩] none).Close =
      some (.unmarshalErr 7) ∧
    Iter.scanRun (fun _ cell _ => if cell.length = 0 then some (.unmarshalErr 7) else none)
        (.mk (some (.unmarshalErr 7)) 1 [[[1]], [[]]] [⟨"ks", "t", "c", 0⟩] none)
        [[some 0]] =
      (.mk (some (.unmarshalErr 7)) 1 [[[1]], [[]]] [⟨"ks", "t", "c", 0⟩] none,
       [false]) := by
  have h := scan_decode_failure_run
    (fun _ cell _ => if cell.length = 0 then some (.unmarshalErr 7) else none)
    [[[1]], [[]]] [⟨"ks", "t", "c", 0⟩] none [[some 0], [some 0]] 1 (.unmarshalErr 7)
    rfl (by decide)
    (fun j hj => by interval_cases j <;> rfl)
    (fun j hj => by interval_cases j; rfl)
    rfl
  exact ⟨h.1, h.2.1, h.2.2 [[some 0]]⟩

/-- Looking up the key that `sEventsSetChange` rewrote yields the old
entry with its `change` overwritten. -/
theorem sLookup_setChange_eq (m : SEvents) (key c : String) :
    sLookup (sEventsSetChange m key c) key =
      (sLookup m key).map (fun ev => { ev with change := c }) := by
  induction m with
  | nil => simp [sEventsSetChange, sLookup]
  | cons kv rest ih =>
    by_cases h1 : kv.1 = key
    · simp [sEventsSetChange, sLookup, h1]
    · simp only [sEventsSetChange, List.map_cons, if_neg h1]
      simp only [sLookup, if_neg h1]
      exact ih

/-- The map update `sEventsSetChange` leaves every other key's entry unchanged. -/
theorem sLookup_setChange_ne (m : SEvents) (key c k : String) (hk : k ≠ key) :
    sLookup (sEventsSetChange m key c) k = sLookup m k := by
  induction m with
  | nil => simp [sEventsSetChange, sLookup]
  | cons kv rest ih =>
    by_cases h1 : kv.1 = key
    · have h2 : kv.1 ≠ k := fun h => hk (h ▸ h1)
      simp only [sEventsSetChange, List.map_cons, if_pos h1]
      simp only [sLookup, if_neg h2]
      simpa [sEventsSetChange] using ih
    · simp only [sEventsSetChange, List.map_cons, if_neg h1]
      by_cases h2 : kv.1 = k
      · simp [sLookup, h2]
      · simp only [sLookup, if_neg h2]
        simpa [sEventsSetChange] using ih

/-- Appending a fresh entry: lookups of absent keys see the new entry. -/
theorem sLookup_append_of_none (m : SEvents) (k key : String) (v : NodeEvent)
    (h : sLookup m k = none) :
    sLookup (m ++ [(key, v)]) k = if key = k then some v else none := by
  induction m with
  | nil => simp [sLookup]
  | cons kv rest ih =>
    by_cases h1 : kv.1 = k
    · simp [sLookup, h1] at h
    · simp only [sLookup, if_neg h1] at h
      simp only [List.cons_append, sLookup, if_neg h1]
      exact ih h

/-- Appending entries does not disturb a key that is already present. -/
theorem sLookup_append_of_some (m : SEvents) (k : String) (w : NodeEvent)
    (l : SEvents) (h : sLookup m k = some w) :
    sLookup (m ++ l) k = some w := by
  induction m with
  | nil => simp [sLookup] at h
  | cons kv rest ih =>
    by_cases h1 : kv.1 = k
    · simp only [sLookup, if_pos h1] at h
      simp [sLookup, h1, h]
    · simp only [sLookup, if_neg h1] at h
      simp only [List.cons_append, sLookup, if_neg h1]
      exact ih h

/-- The collapse invariant of `Session.handleNodeEvent`'s frame loop,
for any starting map: the entry under key `k` after folding the batch is
the starting entry with its `change` overwritten by the last status seen
for `k` (if any), or a fresh entry carrying the first status frame's host
object and port and the last status frame's change string. -/
theorem sEvents_foldl_lookup (k : String) :
    ∀ (frames : List Frame) (m : SEvents),
      sLookup (frames.foldl sEventsStep m) k =
        match sLookup m k with
        | some ev => some { ev with change := (specLastChange k frames).getD ev.change }
        | none =>
          match specFirstHostPort k frames, specLastChange k frames with
          | some hp, some c => some ⟨c, hp.1, hp.2⟩
          | _, _ => none := by
  intro frames
  induction frames with
  | nil =>
    intro m
    cases h : sLookup m k <;> simp [specLastChange, specFirstHostPort, h]
  | cons f rest ih =>
    intro m
    rw [List.foldl_cons, ih (sEventsStep m f)]
    cases f with
    | topologyChange c h p =>
      simp only [sEventsStep, specLastChange, specFirstHostPort]
      cases hl : specLastChange k rest <;> simp [hl]
    | schemaChange ks c =>
      simp only [sEventsStep, specLastChange, specFirstHostPort]
      cases hl : specLastChange k rest <;> simp [hl]
    | statusChange c h p =>
      by_cases hk : h.str = k
      · subst hk
        cases hm : sLookup m h.str with
        | some ev0 =>
          simp only [sEventsStep, hm]
          rw [sLookup_setChange_eq m h.str c]
          rw [hm]
          simp only [Option.map_some', specLastChange, specFirstHostPort, if_pos rfl]
          cases hl : specLastChange h.str rest <;> simp [hl]
        | none =>
          simp only [sEventsStep, hm]
          rw [sLookup_append_of_none m h.str h.str ⟨c, h, p⟩ hm]
          simp only [if_pos rfl, specLastChange, specFirstHostPort]
          cases hl : specLastChange h.str rest <;> simp [hl]
      · have hfk : specLastChange k (Frame.statusChange c h p :: rest) =
            specLastChange k rest := by
          simp only [specLastChange]
          cases hl : specLastChange k rest <;> simp [hl, hk]
        have hff : specFirstHostPort k (Frame.statusChange c h p :: rest) =
            specFirstHostPort k rest := by
          simp [specFirstHostPort, hk]
        have hstep : sLookup (sEventsStep m (.statusChange c h p)) k = sLookup m k := by
          cases hm : sLookup m h.str with
          | some ev0 =>
            simp only [sEventsStep, hm]
            exact sLookup_setChange_ne m h.str c k (fun hh => hk hh.symm)
          | none =>
            simp only [sEventsStep, hm]
            cases hmk : sLookup m k with
            | some w => exact sLookup_append_of_some m k w _ hmk
            | none =>
              rw [sLookup_append_of_none m k h.str ⟨c, h, p⟩ hmk]
              simp [hk]
        simp only [hstep, hfk, hff]

/-- A key is absent from the collapse map iff `sLookup` misses. -/
theorem sLookup_eq_none_iff (m : SEvents) (k : String) :
    sLookup m k = none ↔ k ∉ m.map Prod.fst := by
  induction m with
  | nil => simp [sLookup]
  | cons kv rest ih =>
    by_cases h1 : kv.1 = k
    · simp [sLookup, h1]
    · simp only [sLookup, if_neg h1, List.map_cons, List.mem_cons, not_or, ih]
      constructor
      · intro hn
        exact ⟨fun he => h1 he.symm, hn⟩
      · intro hn
        exact hn.2

/-- The map update `sEventsSetChange` does not change the key list. -/
theorem setChange_keys (m : SEvents) (key c : String) :
    (sEventsSetChange m key c).map Prod.fst = m.map Prod.fst := by
  simp only [sEventsSetChange, List.map_map]
  apply List.map_congr_left
  intro kv _
  by_cases h1 : kv.1 = key <;> simp [h1]

/-- One frame-loop step preserves distinctness of the map's keys. -/
theorem step_keys_nodup (m : SEvents) (f : Frame)
    (hm : (m.map Prod.fst).Nodup) : ((sEventsStep m f).map Prod.fst).Nodup := by
  cases f with
  | topologyChange c h p => simpa [sEventsStep] using hm
  | schemaChange ks c => simpa [sEventsStep] using hm
  | statusChange c h p =>
    cases hl : sLookup m h.str with
    | some ev => simpa [sEventsStep, hl, setChange_keys] using hm
    | none =>
      have hnot : h.str ∉ m.map Prod.fst := (sLookup_eq_none_iff m h.str).mp hl
      simp only [sEventsStep, hl, List.map_append]
      simp [List.nodup_append, hm, hnot]

/-- Folding any batch over a distinct-keyed map keeps the keys distinct. -/
theorem foldl_keys_nodup :
    ∀ (frames : List Frame) (m : SEvents), (m.map Prod.fst).Nodup →
      ((frames.foldl sEventsStep m).map Prod.fst).Nodup := by
  intro frames
  induction frames with
  | nil => intro m hm; simpa using hm
  | cons f rest ih => intro m hm; exact ih _ (step_keys_nodup m f hm)

/-- One frame-loop step preserves the invariant that every entry is
keyed by its own host's string rendering. -/
theorem step_host_key (m : SEvents) (f : Frame)
    (hm : ∀ kv ∈ m, (kv.2).host.str = kv.1) :
    ∀ kv ∈ sEventsStep m f, (kv.2).host.str = kv.1 := by
  cases f with
  | topologyChange c h p => simpa [sEventsStep] using hm
  | schemaChange ks c => simpa [sEventsStep] using hm
  | statusChange c h p =>
    cases hl : sLookup m h.str with
    | some ev =>
      intro kv hkv
      simp only [sEventsStep, hl, sEventsSetChange] at hkv
      rcases List.mem_map.mp hkv with ⟨kv0, hkv0, rfl⟩
      by_cases h1 : kv0.1 = h.str <;> simp [h1, hm kv0 hkv0]
    | none =>
      intro kv hkv
      simp only [sEventsStep, hl] at hkv
      rcases List.mem_append.mp hkv with hin | hin
      · exact hm kv hin
      · simp only [List.mem_singleton] at hin
        subst hin
        rfl

/-- Folding any batch preserves the host-string/key invariant. -/
theorem foldl_host_key :
    ∀ (frames : List Frame) (m : SEvents),
      (∀ kv ∈ m, (kv.2).host.str = kv.1) →
      ∀ kv ∈ frames.foldl sEventsStep m, (kv.2).host.str = kv.1 := by
  intro frames
  induction frames with
  | nil => intro m hm; simpa using hm
  | cons f rest ih => intro m hm; exact ih _ (step_host_key m f hm)

/-- The host strings of the dispatches produced from a collapse map form
a sublist of the map's keys, for any per-entry dispatch decision that
keeps the entry's host. -/
theorem filterMap_hosts_sublist (F : String × NodeEvent → Option NodeDispatch)
    (hF : ∀ kv d, F kv = some d → d.host = (kv.2).host) :
    ∀ m : SEvents, (∀ kv ∈ m, (kv.2).host.str = kv.1) →
      ((m.filterMap F).map (fun d => d.host.str)).Sublist (m.map Prod.fst) := by
  intro m
  induction m with
  | nil => intro _; simp
  | cons kv rest ih =>
    intro hm
    have hrest := ih (fun kv' h' => hm kv' (List.mem_cons_of_mem _ h'))
    cases hFkv : F kv with
    | none =>
      simp only [List.filterMap_cons, hFkv, List.map_cons]
      exact hrest.cons _
    | some d =>
      have hd : d.host.str = kv.1 := by
        rw [hF kv d hFkv]
        exact hm kv (List.mem_cons_self _ _)
      simp only [List.filterMap_cons, hFkv, List.map_cons, hd]
      exact hrest.cons₂ _

/-- A successful lookup means the entry is in the map. -/
theorem sLookup_some_mem (m : SEvents) (k : String) (ev : NodeEvent)
    (h : sLookup m k = some ev) : (k, ev) ∈ m := by
  induction m with
  | nil => simp [sLookup] at h
  | cons kv rest ih =>
    cases kv with
    | mk a b =>
      by_cases h1 : a = k
      · subst h1
        simp only [sLookup, if_pos rfl] at h
        injection h with h2
        subst h2
        exact List.mem_cons_self _ _
      · simp only [sLookup, if_neg h1] at h
        exact List.mem_cons_of_mem _ (ih h)

/-- A host key has a first status frame iff it has a last status change. -/
theorem specFirst_none_iff (k : String) :
    ∀ fs : List Frame, specFirstHostPort k fs = none ↔ specLastChange k fs = none := by
  intro fs
  induction fs with
  | nil => simp [specFirstHostPort, specLastChange]
  | cons f rest ih =>
    cases f with
    | statusChange c h p =>
      by_cases hk : h.str = k
      · simp only [specFirstHostPort, specLastChange, if_pos hk]
        constructor
        · intro hcontra
          simp at hcontra
        · intro hcontra
          cases hl : specLastChange k rest <;> simp [hl] at hcontra
      · have hfk : specLastChange k (Frame.statusChange c h p :: rest) =
            specLastChange k rest := by
          simp only [specLastChange]
          cases hl : specLastChange k rest <;> simp [hl, hk]
        rw [hfk]
        simpa [specFirstHostPort, hk] using ih
    | topologyChange c h p =>
      have hfk : specLastChange k (Frame.topologyChange c h p :: rest) =
          specLastChange k rest := by
        simp only [specLastChange]
        cases hl : specLastChange k rest <;> simp [hl]
      rw [hfk]
      simpa [specFirstHostPort] using ih
    | schemaChange ks c =>
      have hfk : specLastChange k (Frame.schemaChange ks c :: rest) =
          specLastChange k rest := by
        simp only [specLastChange]
        cases hl : specLastChange k rest <;> simp [hl]
      rw [hfk]
      simpa [specFirstHostPort] using ih

/-- C10: for every batch and host key, the collapsed `sEvents` entry is
exactly the first status frame's host object and port for that key,
combined with the last status frame's change string; ports and IP
objects carried by later frames for the same key are discarded. -/
theorem collapse_keeps_first_host_port (frames : List Frame) (k : String) :
    sLookup (buildSEvents frames) k =
      match specFirstHostPort k frames, specLastChange k frames with
      | some hp, some c => some ⟨c, hp.1, hp.2⟩
      | _, _ => none := by
  have h := sEvents_foldl_lookup k frames []
  simpa [buildSEvents, sLookup] using h

/-- C7: in every debounced node-event batch, the collapse map has
pairwise-distinct host keys; the entry for each host key carries exactly
the last status seen for that host in the batch; the dispatched hosts
are pairwise distinct (each distinct host receives at most one
dispatch); and, with status events enabled, a host whose collapsed state
is "UP" (resp. "DOWN") does receive its single UP (resp. DOWN)
dispatch. -/
theorem handleNodeEvent_status_collapse (cfg : EventsCfg) (frames : List Frame) :
    ((buildSEvents frames).map Prod.fst).Nodup ∧
    (∀ k, (sLookup (buildSEvents frames) k).map NodeEvent.change =
      specLastChange k frames) ∧
    (((Session.handleNodeEvent cfg frames).2).map (fun d => d.host.str)).Nodup ∧
    (∀ k ev, sLookup (buildSEvents frames) k = some ev →
      cfg.DisableNodeStatusEvents = false →
      (ev.change = "UP" →
        NodeDispatch.up ev.host ev.port ∈ (Session.handleNodeEvent cfg frames).2) ∧
      (ev.change = "DOWN" →
        NodeDispatch.down ev.host ev.port ∈ (Session.handleNodeEvent cfg frames).2)) := by
  have hkeys : ((buildSEvents frames).map Prod.fst).Nodup :=
    foldl_keys_nodup frames [] (by simp)
  have hinv : ∀ kv ∈ buildSEvents frames, (kv.2).host.str = kv.1 :=
    foldl_host_key frames [] (by simp)
  refine ⟨hkeys, ?_, ?_, ?_⟩
  · intro k
    have h : sLookup (buildSEvents frames) k =
        match specFirstHostPort k frames, specLastChange k frames with
        | some hp, some c => some ⟨c, hp.1, hp.2⟩
        | _, _ => none := by
      simpa [buildSEvents, sLookup] using sEvents_foldl_lookup k frames []
    rw [h]
    cases hf : specFirstHostPort k frames with
    | none =>
      have hl := (specFirst_none_iff k frames).mp hf
      simp [hl]
    | some hp =>
      cases hl : specLastChange k frames with
      | none =>
        have hfn := (specFirst_none_iff k frames).mpr hl
        rw [hfn] at hf
        exact Option.noConfusion hf
      | some c => simp
  · simp only [Session.handleNodeEvent]
    refine List.Sublist.nodup (filterMap_hosts_sublist _ ?_ (buildSEvents frames) hinv)
      hkeys
    intro kv d hd
    repeat' split at hd
    all_goals first
      | exact Option.noConfusion hd
      | (injection hd with hd; subst hd; rfl)
  · intro k ev hev hcfg
    have hmem : (k, ev) ∈ buildSEvents frames := sLookup_some_mem _ _ _ hev
    constructor
    · intro hup
      simp only [Session.handleNodeEvent]
      refine List.mem_filterMap.mpr ⟨(k, ev), hmem, ?_⟩
      simp [hup, hcfg]
    · intro hdn
      simp only [Session.handleNodeEvent]
      refine List.mem_filterMap.mpr ⟨(k, ev), hmem, ?_⟩
      simp [hdn, hcfg]

/-- C7 witness: one host sending DOWN then UP in the same batch is
dispatched exactly once, as UP. -/
theorem handleNodeEvent_status_collapse_witness :
    (sLookup (buildSEvents
        [.statusChange "DOWN" ⟨[10, 0, 0, 1], "10.0.0.1"⟩ 9042,
         .statusChange "UP" ⟨[10, 0, 0, 1], "10.0.0.1"⟩ 9042]) "10.0.0.1").map
      NodeEvent.change = some "UP" ∧
    NodeDispatch.up ⟨[10, 0, 0, 1], "10.0.0.1"⟩ 9042 ∈
      (Session.handleNodeEvent ⟨false, false⟩
        [.statusChange "DOWN" ⟨[10, 0, 0, 1], "10.0.0.1"⟩ 9042,
         .statusChange "UP" ⟨[10, 0, 0, 1], "10.0.0.1"⟩ 9042]).2 ∧
    (((Session.handleNodeEvent ⟨false, false⟩
        [.statusChange "DOWN" ⟨[10, 0, 0, 1], "10.0.0.1"⟩ 9042,
         .statusChange "UP" ⟨[10, 0, 0, 1], "10.0.0.1"⟩ 9042]).2).map
      (fun d => d.host.str)).Nodup := by
  have h := handleNodeEvent_status_collapse ⟨false, false⟩
    [.statusChange "DOWN" ⟨[10, 0, 0, 1], "10.0.0.1"⟩ 9042,
     .statusChange "UP" ⟨[10, 0, 0, 1], "10.0.0.1"⟩ 9042]
  refine ⟨?_, ?_, h.2.2.1⟩
  · rw [h.2.1 "10.0.0.1"]
    rfl
  · exact (h.2.2.2 "10.0.0.1" ⟨"UP", ⟨[10, 0, 0, 1], "10.0.0.1"⟩, 9042⟩
      (by rfl) rfl).1 rfl

end Gocql
